import Mathlib

/-!
Shallow embedding of the Ethereum transaction broadcaster
(core/chains/evm/bulletprooftxmanager/eth_broadcaster.go) and of the
DropOldest insertion strategy.

The database tables eth_txes, eth_tx_attempts and eth_key_states are
embedded as Lean lists inside a `Store` record; each SQL statement of the
source is translated to the corresponding pure list operation.  A SQL
transaction that aborts is modelled by `Except`: an `.error` result carries
no store, so the caller keeps the pre-transaction state (rollback).
Addresses, chain ids, hashes and timestamps are represented as `Nat`;
`big.Int` money amounts as `Int`; nullable columns as `Option`.
-/

/-- States of an eth_txes row (column `state`). -/
inductive EthTxState where
  | unstarted
  | inProgress
  | unconfirmed
  | confirmed
  | confirmedMissingReceipt
  | fatalError
deriving DecidableEq, Repr

/-- States of an eth_tx_attempts row (column `state`). -/
inductive EthTxAttemptState where
  | inProgress
  | broadcast
  | insufficientEth
deriving DecidableEq, Repr

/-- A row of eth_txes.  Fields mirror the Go struct EthTx; columns not read
by any function modelled here (meta, to_address payload details) are
omitted. -/
structure EthTx where
  id : Nat
  fromAddress : Nat
  evmChainId : Nat
  value : Nat
  gasLimit : Nat
  encodedPayload : List Nat
  nonce : Option Int
  state : EthTxState
  error : Option String
  broadcastAt : Option Nat
  createdAt : Nat
  subject : Option Nat
  pipelineTaskRunId : Option Nat
  simulate : Bool
deriving DecidableEq, Repr

/-- A row of eth_tx_attempts (Go struct EthTxAttempt).  `txType` is 0x0 for
legacy and 0x2 for EIP-1559 attempts. -/
structure EthTxAttempt where
  id : Nat
  ethTxId : Nat
  txType : Nat
  gasPrice : Int
  gasTipCap : Option Int
  gasFeeCap : Option Int
  gasLimit : Nat
  state : EthTxAttemptState
deriving DecidableEq, Repr

/-- A row of eth_key_states; the identity is (address, evm_chain_id). -/
structure EthKeyState where
  address : Nat
  evmChainId : Nat
  nextNonce : Int
deriving DecidableEq, Repr

/-- The durable store: the three tables the broadcaster touches. -/
structure Store where
  ethTxes : List EthTx
  ethTxAttempts : List EthTxAttempt
  ethKeyStates : List EthKeyState
deriving DecidableEq, Repr

/-- The classification of a failed SendRawTransaction produced by the
send-error classifier (evmclient.SendError predicates used in
handleInProgressEthTx). -/
inductive SendErr where
  | nonceTooLow
  | replacementUnderpriced
  | terminallyUnderpriced
  | feeTooLow
  | feeTooHigh
  | temporarilyUnderpriced
  | insufficientEth
  | tooExpensive
  | fatal
  | other
deriving DecidableEq, Repr

/-- The raw error text carried by a classified send error
(sendError.Error() in the source); the exact text is irrelevant to the
properties proved here, only that it is recorded. -/
def sendErrMsg : SendErr → String
  | .nonceTooLow => "nonce too low"
  | .replacementUnderpriced => "replacement transaction underpriced"
  | .terminallyUnderpriced => "transaction underpriced"
  | .feeTooLow => "fee too low"
  | .feeTooHigh => "fee too high"
  | .temporarilyUnderpriced => "temporarily underpriced"
  | .insufficientEth => "insufficient funds for transfer"
  | .tooExpensive => "tx fee exceeds the configured cap"
  | .fatal => "fatal send error"
  | .other => "unknown rpc error"

/-- Outcome of the optional pre-broadcast simulation (simulateTransaction
plus ExtractRPCError): a deterministic revert carries an rpc message, any
other failure is logged and broadcasting proceeds. -/
inductive SimOutcome where
  | success
  | softFail (msg : String)
  | revert (msg : String)
deriving DecidableEq, Repr

/-- Outcome of the pipeline resume callback used by
saveFatallyErroredTransaction: sql.ErrNoRows is tolerated, any other
failure aborts the save. -/
inductive ResumeResult where
  | ok
  | noRows
  | failed (msg : String)
deriving DecidableEq, Repr

/-- The broadcaster's environment: configuration knobs and the estimator,
simulation and resume-callback capabilities consumed by the functions
modelled here. -/
structure Env where
  dynamicFees : Bool
  maxGasPriceWei : Int
  bumpLegacyGas : Int → Nat → Except String (Int × Nat)
  getLegacyGas : List Nat → Nat → Bool → Except String (Int × Nat)
  simResult : SimOutcome
  resumeCallback : Option (Nat → ResumeResult)

/-- Lookup of the eth_txes row with a given id (SELECT ... WHERE id = $1,
first row). -/
def findEthTx (s : Store) (i : Nat) : Option EthTx :=
  s.ethTxes.find? fun t => t.id == i

/-- Lookup of the eth_tx_attempts row with a given id. -/
def findAttempt (s : Store) (i : Nat) : Option EthTxAttempt :=
  s.ethTxAttempts.find? fun a => a.id == i

/-- The WHERE clause shared by GetNextNonce and the key lookup: address =
$1 AND evm_chain_id = $2. -/
def keyMatch (address chainID : Nat) (k : EthKeyState) : Bool :=
  k.address == address && k.evmChainId == chainID

/-- GetNextNonce: SELECT next_nonce FROM eth_key_states WHERE address = $1
AND evm_chain_id = $2.  `none` models the sql.ErrNoRows outcome. -/
def GetNextNonce (s : Store) (address chainID : Nat) : Option Int :=
  (s.ethKeyStates.find? (keyMatch address chainID)).map (·.nextNonce)

/-- The WHERE clause of IncrementNextNonce: address = $1 AND next_nonce = $2
AND evm_chain_id = $3. -/
def nonceMatch (address chainID : Nat) (currentNonce : Int) (k : EthKeyState) : Bool :=
  k.address == address && k.nextNonce == currentNonce && k.evmChainId == chainID

/-- The SET next_nonce = next_nonce + 1 row transformer of
IncrementNextNonce, applied to a row exactly when the WHERE clause
matches. -/
def incFun (address chainID : Nat) (currentNonce : Int) (k : EthKeyState) : EthKeyState :=
  if nonceMatch address chainID currentNonce k then { k with nextNonce := k.nextNonce + 1 }
  else k

/-- IncrementNextNonce: UPDATE eth_key_states SET next_nonce = next_nonce+1
WHERE address = $1 AND next_nonce = $2 AND evm_chain_id = $3; zero rows
affected is reported as an unrecoverable invariant-violation error. -/
def IncrementNextNonce (s : Store) (address chainID : Nat) (currentNonce : Int) :
    Except String Store :=
  if s.ethKeyStates.countP (nonceMatch address chainID currentNonce) == 0 then
    .error "invariant violation: could not increment nonce because no rows matched query"
  else
    .ok { s with ethKeyStates := s.ethKeyStates.map (incFun address chainID currentNonce) }

/-- UPDATE eth_txes SET ... WHERE id = i, as a row transformer. -/
def updateEthTxRow (s : Store) (i : Nat) (f : EthTx → EthTx) : Store :=
  { s with ethTxes := s.ethTxes.map fun t => if t.id == i then f t else t }

/-- UPDATE eth_tx_attempts SET ... WHERE id = i, as a row transformer. -/
def updateAttemptRow (s : Store) (i : Nat) (f : EthTxAttempt → EthTxAttempt) : Store :=
  { s with ethTxAttempts := s.ethTxAttempts.map fun a => if a.id == i then f a else a }

/-- Runs the callbacks passed to saveAttempt inside the same transaction:
each one sees the store produced so far and a failure aborts the whole
transaction. -/
def runCallbacks : List (Store → Except String Store) → Store → Except String Store
  | [], s => .ok s
  | f :: fs, s =>
    match f s with
    | .error e => .error e
    | .ok s1 => runCallbacks fs s1

/-- saveAttempt (the save_broadcast step): guards that the transaction is
in_progress, the attempt is in_progress and the new attempt state is
broadcast, then in one transaction increments next_nonce conditionally on
etx.nonce, moves the eth_txes row to unconfirmed (writing the in-memory
error and broadcast_at), moves the attempt row to broadcast and runs the
callbacks.  A nil-nonce dereference of the source is modelled as an
error. -/
def saveAttempt (s : Store) (etx : EthTx) (attempt : EthTxAttempt)
    (NewAttemptState : EthTxAttemptState)
    (callbacks : List (Store → Except String Store)) : Except String Store :=
  if etx.state ≠ .inProgress then
    .error "can only transition to unconfirmed from in_progress"
  else if attempt.state ≠ .inProgress then
    .error "attempt must be in in_progress state"
  else if NewAttemptState ≠ .broadcast then
    .error "new attempt state must be broadcast"
  else
    match etx.nonce with
    | none => .error "etx nonce is not set"
    | some n =>
      match IncrementNextNonce s etx.fromAddress etx.evmChainId n with
      | .error e => .error e
      | .ok s1 =>
        let s2 := updateEthTxRow s1 etx.id fun t =>
          { t with state := .unconfirmed, error := etx.error, broadcastAt := etx.broadcastAt }
        let s3 := updateAttemptRow s2 attempt.id fun a => { a with state := NewAttemptState }
        runCallbacks callbacks s3

/-- The pipeline resume step of saveFatallyErroredTransaction: when the
transaction carries a pipeline_task_run_id and a resume callback is
configured, the callback runs before the database transaction;
sql.ErrNoRows is tolerated, any other failure aborts the save. -/
def resumeStep (env : Env) (etx : EthTx) : Except String Unit :=
  match etx.pipelineTaskRunId, env.resumeCallback with
  | some rid, some cb =>
    match cb rid with
    | .failed m => .error ("failed to resume pipeline: " ++ m)
    | _ => .ok ()
  | _, _ => .ok ()

/-- saveFatallyErroredTransaction: guards the state and the presence of the
error string, runs the (non-transactional) pipeline resume callback, then
in one transaction deletes every attempt of the transaction and saves the
row as fatal_error with nonce and broadcast_at cleared to NULL. -/
def saveFatallyErroredTransaction (env : Env) (s : Store) (etx : EthTx) :
    Except String Store :=
  if etx.state ≠ .inProgress then
    .error "can only transition to fatal_error from in_progress"
  else if etx.error = none then
    .error "expected error field to be set"
  else
    match resumeStep env etx with
    | .error e => .error e
    | .ok _ =>
      let s1 := { s with ethTxAttempts := s.ethTxAttempts.filter fun a => a.ethTxId ≠ etx.id }
      .ok (updateEthTxRow s1 etx.id fun t =>
        { t with state := .fatalError, error := etx.error, broadcastAt := none, nonce := none })

/-- Fresh primary key for a newly inserted attempt row. -/
def freshAttemptId (s : Store) : Nat :=
  (s.ethTxAttempts.map (·.id)).foldr max 0 + 1

/-- Modelled from the spec: the Attempt Builder's legacy variant (spec 4.3);
NewLegacyAttempt and the signer live outside the sources provided.  It
produces an in_progress attempt with tx_type 0x0 priced by gas_price for
the given transaction. -/
def NewLegacyAttempt (s : Store) (etx : EthTx) (gasPrice : Int) (gasLimit : Nat) :
    EthTxAttempt :=
  { id := freshAttemptId s
    ethTxId := etx.id
    txType := 0
    gasPrice := gasPrice
    gasTipCap := none
    gasFeeCap := none
    gasLimit := gasLimit
    state := .inProgress }

/-- Modelled from the spec: save_replacement_attempt (spec 4.1);
saveReplacementInProgressAttempt lives outside the sources provided.  It
atomically replaces the single in_progress attempt with the new signed
attempt, preserving the EthTx state. -/
def saveReplacementInProgressAttempt (s : Store) (oldAttempt : EthTxAttempt)
    (replacement : EthTxAttempt) : Except String Store :=
  if oldAttempt.state ≠ .inProgress ∨ replacement.state ≠ .inProgress then
    .error "expected attempts to be in_progress"
  else
    .ok { s with
          ethTxAttempts :=
            (s.ethTxAttempts.filter fun a => a.id ≠ oldAttempt.id) ++ [replacement] }

/-- tryAgainWithNewGas: builds a legacy replacement attempt at the given
price and limit and saves it in place of the current attempt.  The
recursive re-send of the source is performed by the caller
(handleInProgressEthTx) on the returned replacement. -/
def tryAgainWithNewGas (s : Store) (etx : EthTx) (attempt : EthTxAttempt)
    (newGasPrice : Int) (newGasLimit : Nat) : Except String (Store × EthTxAttempt) :=
  match saveReplacementInProgressAttempt s attempt
      (NewLegacyAttempt s etx newGasPrice newGasLimit) with
  | .error e => .error e
  | .ok s1 => .ok (s1, NewLegacyAttempt s etx newGasPrice newGasLimit)

/-- tryAgainBumpingGas: refuses to bump an EIP-1559 attempt, asks the
estimator for a bumped legacy price, refuses to proceed when the bump is
stuck at the configured gas price ceiling, and otherwise saves a
replacement attempt at the bumped price. -/
def tryAgainBumpingGas (env : Env) (s : Store) (etx : EthTx) (attempt : EthTxAttempt) :
    Except String (Store × EthTxAttempt) :=
  if attempt.txType == 2 then
    .error "bumping gas on initial send is not supported for EIP-1559 transactions"
  else
    match env.bumpLegacyGas attempt.gasPrice etx.gasLimit with
    | .error e => .error e
    | .ok (bumpedGasPrice, bumpedGasLimit) =>
      if bumpedGasPrice == attempt.gasPrice && bumpedGasPrice == env.maxGasPriceWei then
        .error "Hit gas price bump ceiling, will not bump further. This is a terminal error"
      else
        tryAgainWithNewGas s etx attempt bumpedGasPrice bumpedGasLimit

/-- tryAgainWithNewEstimation: re-estimates through the legacy estimator
with the force-refetch option and saves a replacement attempt at the new
price. -/
def tryAgainWithNewEstimation (env : Env) (s : Store) (etx : EthTx)
    (attempt : EthTxAttempt) : Except String (Store × EthTxAttempt) :=
  match env.getLegacyGas etx.encodedPayload etx.gasLimit true with
  | .error e => .error e
  | .ok (gasPrice, gasLimit) => tryAgainWithNewGas s etx attempt gasPrice gasLimit

/-- handleInProgressEthTx: one send of the in_progress attempt followed by
the classification ladder of the source (state guard, optional simulation,
too-expensive and fatal saves, nonce-too-low and replacement-underpriced
nilling, terminal-underpriced bump retry, fee revaluation retry,
temporarily-underpriced nilling, insufficient-eth bail-out, save as
broadcast, transient error).  Successive RPC send classifications are
supplied in `sends` (head = this send, `none` = accepted); each retry
consumes the next entry. -/
def handleInProgressEthTx (env : Env) (s : Store) (etx : EthTx) (attempt : EthTxAttempt)
    (initialBroadcastAt : Nat) : List (Option SendErr) → Except String Store
  | [] => .error "no rpc response available"
  | sendError :: rest =>
    if etx.state ≠ .inProgress then
      .error "invariant violation: expected transaction to be in_progress"
    else
      match (if etx.simulate then env.simResult else SimOutcome.success) with
      | .revert m =>
        saveFatallyErroredTransaction env s
          { etx with error := some ("transaction reverted during simulation: " ++ m) }
      | _ =>
        if sendError == some .tooExpensive then
          saveFatallyErroredTransaction env s { etx with error := some (sendErrMsg .tooExpensive) }
        else if sendError == some .fatal then
          saveFatallyErroredTransaction env s { etx with error := some (sendErrMsg .fatal) }
        else
          let etx1 := { etx with broadcastAt := some initialBroadcastAt }
          let se1 : Option SendErr :=
            if sendError == some .nonceTooLow || sendError == some .replacementUnderpriced then
              none
            else sendError
          if se1 == some .terminallyUnderpriced then
            match tryAgainBumpingGas env s etx1 attempt with
            | .error e => .error e
            | .ok (s1, replacementAttempt) =>
              handleInProgressEthTx env s1 etx1 replacementAttempt initialBroadcastAt rest
          else if se1 == some .feeTooLow || se1 == some .feeTooHigh then
            match tryAgainWithNewEstimation env s etx1 attempt with
            | .error e => .error e
            | .ok (s1, replacementAttempt) =>
              handleInProgressEthTx env s1 etx1 replacementAttempt initialBroadcastAt rest
          else
            let se2 := if se1 == some .temporarilyUnderpriced then none else se1
            if se2 == some .insufficientEth then
              .error (sendErrMsg .insufficientEth)
            else
              match se2 with
              | none => saveAttempt s etx1 attempt .broadcast []
              | some e => .error ("error while sending transaction: " ++ sendErrMsg e)

/-- getInProgressEthTx: loads the in_progress eth_txes row for the address
(first row of the SELECT) together with its attempts; anything other than
exactly one in_progress attempt is an invariant violation. -/
def getInProgressEthTx (s : Store) (fromAddress : Nat) :
    Except String (Option (EthTx × EthTxAttempt)) :=
  match s.ethTxes.find? (fun t => t.fromAddress == fromAddress
      && t.state == EthTxState.inProgress) with
  | none => .ok none
  | some etx =>
    match s.ethTxAttempts.filter (fun a => a.ethTxId == etx.id) with
    | [a] =>
      if a.state == EthTxAttemptState.inProgress then .ok (some (etx, a))
      else .error "invariant violation: expected in_progress transaction to have exactly one unsent attempt"
    | _ => .error "invariant violation: expected in_progress transaction to have exactly one unsent attempt"

/-- handleAnyInProgressEthTx: crash recovery at the start of a worker
cycle; if an in_progress row exists it is finished via
handleInProgressEthTx with the row's created_at as the initial broadcast
time. -/
def handleAnyInProgressEthTx (env : Env) (s : Store) (fromAddress : Nat)
    (sends : List (Option SendErr)) : Except String Store :=
  match getInProgressEthTx s fromAddress with
  | .error e => .error e
  | .ok none => .ok s
  | .ok (some (etx, attempt)) =>
    handleInProgressEthTx env s etx attempt etx.createdAt sends

/-- The ORDER BY value ASC, created_at ASC, id ASC comparison of
findNextUnstartedTransactionFromAddress. -/
def txLexLe (a b : EthTx) : Bool :=
  a.value < b.value
    || (a.value == b.value
        && (a.createdAt < b.createdAt || (a.createdAt == b.createdAt && a.id ≤ b.id)))

/-- The unstarted rows of one (from_address, evm_chain_id), i.e. the rows
matched by the WHERE clause of findNextUnstartedTransactionFromAddress. -/
def unstartedTxs (s : Store) (fromAddress chainID : Nat) : List EthTx :=
  s.ethTxes.filter fun t =>
    t.fromAddress == fromAddress && t.state == EthTxState.unstarted
      && t.evmChainId == chainID

/-- findNextUnstartedTransactionFromAddress: the first row of the matching
rows ordered by value ASC, created_at ASC, id ASC, i.e. the minimum in
that lexicographic order. -/
def findNextUnstartedTransactionFromAddress (s : Store) (fromAddress chainID : Nat) :
    Option EthTx :=
  match unstartedTxs s fromAddress chainID with
  | [] => none
  | t :: ts => some (ts.foldl (fun acc u => if txLexLe acc u then acc else u) t)

/-- nextUnstartedTransactionWithNonce: picks the next unstarted row and
assigns it the stored next_nonce; a missing key row is an error, an empty
queue returns none. -/
def nextUnstartedTransactionWithNonce (s : Store) (fromAddress chainID : Nat) :
    Except String (Option EthTx) :=
  match findNextUnstartedTransactionFromAddress s fromAddress chainID with
  | none => .ok none
  | some etx =>
    match GetNextNonce s etx.fromAddress chainID with
    | none => .error "GetNextNonce failed"
    | some nonce => .ok (some { etx with nonce := some nonce })

/-- The WHERE clause of DropOldest pruning: state = unstarted AND
subject = $1 (from_address is deliberately absent). -/
def isSubjectUnstarted (subject : Nat) (t : EthTx) : Bool :=
  t.subject == some subject && t.state == EthTxState.unstarted

/-- Insertion of one id into a descending-sorted list of ids; together with
`sortDesc` this realises the ORDER BY id DESC of the pruning query. -/
def insertDesc (i : Nat) : List Nat → List Nat
  | [] => [i]
  | j :: js => if j < i then i :: j :: js else j :: insertDesc i js

/-- Sort a list of ids in descending order. -/
def sortDesc (l : List Nat) : List Nat := l.foldr insertDesc []

/-- The DropOldestStrategy record (subject, queueSize, simulate). -/
structure DropOldestStrategy where
  subject : Nat
  queueSize : Nat
  simulate : Bool
deriving DecidableEq, Repr

/-- The ids of the `queueSize` newest unstarted rows carrying the subject
(ORDER BY id DESC LIMIT queueSize of the pruning query). -/
def pruneKeepIds (subject queueSize : Nat) (s : Store) : List Nat :=
  (sortDesc ((s.ethTxes.filter (isSubjectUnstarted subject)).map (·.id))).take queueSize

/-- The rows deleted by the pruning query: unstarted, carrying the
subject, and not among the queueSize newest ids. -/
def pruneDoomed (subject queueSize : Nat) (s : Store) (t : EthTx) : Bool :=
  isSubjectUnstarted subject t && !((pruneKeepIds subject queueSize s).contains t.id)

/-- Modelled from the spec: DropOldestStrategy.PruneQueue (spec 4.5); its
implementation (strategies.go) is outside the sources provided, only its
test is.  After an insert it deletes every unstarted row carrying the
subject beyond the queueSize newest by id (ORDER BY id DESC), ignoring
from_address, and returns the number of rows deleted together with the new
store. -/
def DropOldestStrategy.PruneQueue (st : DropOldestStrategy) (s : Store) : Int × Store :=
  (Int.ofNat (s.ethTxes.countP (pruneDoomed st.subject st.queueSize s)),
    { s with ethTxes := s.ethTxes.filter fun t => !(pruneDoomed st.subject st.queueSize s t) })

/-- The store state in the middle of saveAttempt's transaction: next_nonce
already incremented (`s1`), the eth_txes row moved to unconfirmed with the
in-memory error and broadcast_at written, and the attempt row moved to
broadcast; the callbacks then run on this state. -/
def broadcastUpdatedStore (s1 : Store) (etx : EthTx) (attempt : EthTxAttempt) : Store :=
  updateAttemptRow
    (updateEthTxRow s1 etx.id fun t =>
      { t with state := .unconfirmed, error := etx.error, broadcastAt := etx.broadcastAt })
    attempt.id fun a => { a with state := .broadcast }

/-- Well-formedness of eth_key_states: (address, evm_chain_id) is the row
identity, so two rows agreeing on both are the same row. -/
def keysUnique (s : Store) : Prop :=
  ∀ x ∈ s.ethKeyStates, ∀ y ∈ s.ethKeyStates,
    x.address = y.address → x.evmChainId = y.evmChainId → x = y

/-- A concrete environment used by the witnesses: EIP-1559 dynamic fees
enabled, gas price ceiling 100, a bump estimator adding 20 and a legacy
estimator returning 50. -/
def wEnv : Env :=
  { dynamicFees := true
    maxGasPriceWei := 100
    bumpLegacyGas := fun p _ => .ok (p + 20, 21000)
    getLegacyGas := fun _ g _ => .ok (50, g)
    simResult := .success
    resumeCallback := none }

/-- A concrete environment whose bump estimator returns the input price
unchanged and whose ceiling equals that price. -/
def wEnvCeiling : Env :=
  { dynamicFees := false
    maxGasPriceWei := 100
    bumpLegacyGas := fun p _ => .ok (p, 21000)
    getLegacyGas := fun _ g _ => .ok (50, g)
    simResult := .success
    resumeCallback := none }

/-- A concrete in_progress transaction used by the witnesses and the C5
counterexample: its stored broadcast_at (5) differs from its created_at
(10). -/
def wEtx : EthTx :=
  { id := 1, fromAddress := 7, evmChainId := 3, value := 0, gasLimit := 21000
    encodedPayload := [1, 2], nonce := some 4, state := .inProgress, error := none
    broadcastAt := some 5, createdAt := 10, subject := none, pipelineTaskRunId := none
    simulate := false }

/-- The single in_progress attempt of `wEtx`. -/
def wAttempt : EthTxAttempt :=
  { id := 1, ethTxId := 1, txType := 0, gasPrice := 100, gasTipCap := none
    gasFeeCap := none, gasLimit := 21000, state := .inProgress }

/-- A store holding `wEtx`, its attempt and the key state of (7, 3) with
next_nonce 4. -/
def wStore : Store :=
  { ethTxes := [wEtx]
    ethTxAttempts := [wAttempt]
    ethKeyStates := [{ address := 7, evmChainId := 3, nextNonce := 4 }] }

/-- An unstarted row used by the C3 witness. -/
def wUnstarted (i value createdAt : Nat) : EthTx :=
  { id := i, fromAddress := 7, evmChainId := 3, value := value, gasLimit := 21000
    encodedPayload := [], nonce := none, state := .unstarted, error := none
    broadcastAt := none, createdAt := createdAt, subject := none
    pipelineTaskRunId := none, simulate := false }

/-- A store with three unstarted rows for address 7 on chain 3; id 12 is
the minimum in the (value, created_at, id) order. -/
def wQueueStore : Store :=
  { ethTxes := [wUnstarted 10 2 1, wUnstarted 11 1 9, wUnstarted 12 1 3]
    ethTxAttempts := []
    ethKeyStates := [{ address := 7, evmChainId := 3, nextNonce := 4 }] }

/-- A row of the DropOldest pruning scenario of the source test
Test_DropOldestStrategy_PruneQueue. -/
def pruneRow (i : Nat) (st : EthTxState) (subj : Option Nat) (addr : Nat) : EthTx :=
  { id := i, fromAddress := addr, evmChainId := 0, value := 0, gasLimit := 21000
    encodedPayload := [], nonce := none, state := st, error := none, broadcastAt := none
    createdAt := i, subject := subj, pipelineTaskRunId := none, simulate := false }

/-- The nine-row table of the source test Test_DropOldestStrategy_PruneQueue:
four non-unstarted rows, then five unstarted rows with subjects 11 and 22
spread over two addresses. -/
def pruneStore : Store :=
  { ethTxes :=
      [ pruneRow 1 .fatalError none 7
      , pruneRow 2 .inProgress none 7
      , pruneRow 3 .confirmed none 7
      , pruneRow 4 .unconfirmed none 7
      , pruneRow 5 .unstarted (some 11) 7
      , pruneRow 6 .unstarted (some 22) 7
      , pruneRow 7 .unstarted (some 11) 8
      , pruneRow 8 .unstarted (some 11) 7
      , pruneRow 9 .unstarted (some 11) 8 ]
    ethTxAttempts := []
    ethKeyStates := [] }

/-- An EIP-1559 (tx_type 0x2) variant of `wAttempt`. -/
def w1559Attempt : EthTxAttempt := { wAttempt with txType := 2 }

/-- The legacy replacement attempt built for `wEtx` at the re-estimated
price 50. -/
def wReplacement : EthTxAttempt := NewLegacyAttempt wStore wEtx 50 21000

/-- `wStore` after the replacement attempt is swapped in for `wAttempt`. -/
def wReplacedStore : Store := { wStore with ethTxAttempts := [wReplacement] }

/-! ### Generic list helpers -/

theorem findOfMapCongr {α : Type} (g : α → α) (q : α → Bool)
    (h : ∀ a, q (g a) = q a) (l : List α) :
    (l.map g).find? q = (l.find? q).map g := by
  induction l with
  | nil => rfl
  | cons a l ih =>
    simp only [List.map_cons, List.find?_cons, h a]
    cases hqa : q a
    · simpa using ih
    · rfl

theorem find_eq_of_mem_unique {α : Type} {l : List α} {q : α → Bool} {k : α}
    (hk : k ∈ l) (hq : q k = true) (huniq : ∀ x ∈ l, q x = true → x = k) :
    l.find? q = some k := by
  induction l with
  | nil => cases hk
  | cons a l ih =>
    cases hqa : q a with
    | true =>
      have ha : a = k := huniq a (List.mem_cons_self a l) hqa
      subst ha
      simp [List.find?_cons, hqa]
    | false =>
      have hk2 : k ∈ l := by
        rcases List.mem_cons.mp hk with h | h
        · subst h; rw [hq] at hqa; cases hqa
        · exact h
      simp only [List.find?_cons, hqa]
      exact ih hk2 fun x hx hqx => huniq x (List.mem_cons_of_mem _ hx) hqx

theorem map_filter_and {α β : Type} (f : α → β) (p : α → Bool) (q : β → Bool)
    (l : List α) :
    (l.filter fun a => p a && q (f a)).map f = ((l.filter p).map f).filter q := by
  induction l with
  | nil => rfl
  | cons a l ih => cases hp : p a <;> cases hq : q (f a) <;> simp [hp, hq, ih]

/-! ### Key-state lemmas -/

theorem keyMatch_iff (a c : Nat) (k : EthKeyState) :
    keyMatch a c k = true ↔ k.address = a ∧ k.evmChainId = c := by
  simp [keyMatch]

theorem nonceMatch_iff (a c : Nat) (e : Int) (k : EthKeyState) :
    nonceMatch a c e k = true ↔ k.address = a ∧ k.nextNonce = e ∧ k.evmChainId = c := by
  simp [nonceMatch, and_assoc]

theorem incFun_address (a c : Nat) (e : Int) (k : EthKeyState) :
    (incFun a c e k).address = k.address := by
  unfold incFun; split <;> rfl

theorem incFun_chain (a c : Nat) (e : Int) (k : EthKeyState) :
    (incFun a c e k).evmChainId = k.evmChainId := by
  unfold incFun; split <;> rfl

theorem incFun_keyMatch (a c a2 c2 : Nat) (e : Int) (k : EthKeyState) :
    keyMatch a2 c2 (incFun a c e k) = keyMatch a2 c2 k := by
  unfold keyMatch
  rw [incFun_address, incFun_chain]

theorem IncrementNextNonce_ok_iff (s : Store) (a c : Nat) (e : Int) :
    (∃ s1, IncrementNextNonce s a c e = .ok s1)
      ↔ ∃ k ∈ s.ethKeyStates, nonceMatch a c e k = true := by
  constructor
  · rintro ⟨s1, h1⟩
    unfold IncrementNextNonce at h1
    split at h1
    · cases h1
    · rename_i h
      have hne : s.ethKeyStates.countP (nonceMatch a c e) ≠ 0 := by simpa using h
      exact List.countP_pos_iff.mp (Nat.pos_of_ne_zero hne)
  · rintro ⟨k, hk, hm⟩
    have hpos : 0 < s.ethKeyStates.countP (nonceMatch a c e) :=
      List.countP_pos_iff.mpr ⟨k, hk, hm⟩
    unfold IncrementNextNonce
    rw [if_neg (by simpa using Nat.pos_iff_ne_zero.mp hpos)]
    exact ⟨_, rfl⟩

theorem IncrementNextNonce_ok_elim {s : Store} {a c : Nat} {e : Int} {s1 : Store}
    (h : IncrementNextNonce s a c e = .ok s1) :
    s1 = { s with ethKeyStates := s.ethKeyStates.map (incFun a c e) } := by
  unfold IncrementNextNonce at h
  split at h
  · cases h
  · exact (Except.ok.inj h).symm

theorem GetNextNonce_after_incr {s : Store} {a c : Nat} {e : Int}
    (h : GetNextNonce s a c = some e) :
    GetNextNonce { s with ethKeyStates := s.ethKeyStates.map (incFun a c e) } a c
      = some (e + 1) := by
  unfold GetNextNonce at h ⊢
  rw [show ({ s with ethKeyStates := s.ethKeyStates.map (incFun a c e) } : Store).ethKeyStates
      = s.ethKeyStates.map (incFun a c e) from rfl]
  rw [findOfMapCongr (incFun a c e) (keyMatch a c) (incFun_keyMatch a c a c e) s.ethKeyStates]
  cases hf : s.ethKeyStates.find? (keyMatch a c) with
  | none => rw [hf] at h; cases h
  | some k =>
    rw [hf] at h
    have hke : k.nextNonce = e := by simpa using h
    have hkm : keyMatch a c k = true := List.find?_some hf
    have hnm : nonceMatch a c e k = true := by
      rcases (keyMatch_iff a c k).mp hkm with ⟨h1, h2⟩
      exact (nonceMatch_iff a c e k).mpr ⟨h1, hke, h2⟩
    simp [incFun, hnm, hke]

theorem GetNextNonce_incr_frame {s : Store} {a c : Nat} {e : Int} (a2 c2 : Nat)
    (hne : ¬(a2 = a ∧ c2 = c)) :
    GetNextNonce { s with ethKeyStates := s.ethKeyStates.map (incFun a c e) } a2 c2
      = GetNextNonce s a2 c2 := by
  unfold GetNextNonce
  rw [show ({ s with ethKeyStates := s.ethKeyStates.map (incFun a c e) } : Store).ethKeyStates
      = s.ethKeyStates.map (incFun a c e) from rfl]
  rw [findOfMapCongr (incFun a c e) (keyMatch a2 c2) (incFun_keyMatch a c a2 c2 e) s.ethKeyStates]
  cases hf : s.ethKeyStates.find? (keyMatch a2 c2) with
  | none => simp
  | some k =>
    have hkm := (keyMatch_iff a2 c2 k).mp (List.find?_some hf)
    have hnm : nonceMatch a c e k = false := by
      by_contra hcon
      have : nonceMatch a c e k = true := by
        cases hx : nonceMatch a c e k
        · exact absurd hx hcon
        · rfl
      rcases (nonceMatch_iff a c e k).mp this with ⟨h1, _, h3⟩
      exact hne ⟨hkm.1.symm.trans h1, hkm.2.symm.trans h3⟩
    simp [incFun, hnm]

/-! ### Row-update lemmas -/

theorem findEthTx_congr {s s2 : Store} (h : s2.ethTxes = s.ethTxes) (i : Nat) :
    findEthTx s2 i = findEthTx s i := by
  unfold findEthTx; rw [h]

theorem findAttempt_congr {s s2 : Store} (h : s2.ethTxAttempts = s.ethTxAttempts) (i : Nat) :
    findAttempt s2 i = findAttempt s i := by
  unfold findAttempt; rw [h]

theorem GetNextNonce_congr {s s2 : Store} (h : s2.ethKeyStates = s.ethKeyStates)
    (a c : Nat) : GetNextNonce s2 a c = GetNextNonce s a c := by
  unfold GetNextNonce; rw [h]

theorem findEthTx_update_self (s : Store) (i : Nat) (f : EthTx → EthTx)
    (hf : ∀ t, (f t).id = t.id) :
    findEthTx (updateEthTxRow s i f) i = (findEthTx s i).map f := by
  unfold findEthTx updateEthTxRow
  have hq : ∀ t : EthTx,
      (((fun t => if t.id == i then f t else t) t).id == i) = (t.id == i) := by
    intro t
    by_cases ht : t.id = i
    · simp [ht, hf t]
    · simp [ht]
  rw [show ({ s with ethTxes := s.ethTxes.map fun t => if t.id == i then f t else t } :
      Store).ethTxes = s.ethTxes.map (fun t => if t.id == i then f t else t) from rfl]
  rw [findOfMapCongr _ _ hq s.ethTxes]
  cases hft : s.ethTxes.find? (fun t => t.id == i) with
  | none => rfl
  | some t =>
    have hti := List.find?_some hft
    have hti2 : t.id = i := by simpa using hti
    simp [hti2]

theorem findEthTx_update_other (s : Store) (i j : Nat) (f : EthTx → EthTx)
    (hf : ∀ t, (f t).id = t.id) (hij : j ≠ i) :
    findEthTx (updateEthTxRow s i f) j = findEthTx s j := by
  unfold findEthTx updateEthTxRow
  have hq : ∀ t : EthTx,
      (((fun t => if t.id == i then f t else t) t).id == j) = (t.id == j) := by
    intro t
    by_cases ht : t.id = i
    · simp [ht, hf t]
    · simp [ht]
  rw [show ({ s with ethTxes := s.ethTxes.map fun t => if t.id == i then f t else t } :
      Store).ethTxes = s.ethTxes.map (fun t => if t.id == i then f t else t) from rfl]
  rw [findOfMapCongr _ _ hq s.ethTxes]
  cases hft : s.ethTxes.find? (fun t => t.id == j) with
  | none => rfl
  | some t =>
    have htj := List.find?_some hft
    have htj2 : t.id = j := by simpa using htj
    have : t.id ≠ i := by rw [htj2]; exact hij
    simp [this]

theorem findAttempt_update_self (s : Store) (i : Nat) (f : EthTxAttempt → EthTxAttempt)
    (hf : ∀ a, (f a).id = a.id) :
    findAttempt (updateAttemptRow s i f) i = (findAttempt s i).map f := by
  unfold findAttempt updateAttemptRow
  have hq : ∀ a : EthTxAttempt,
      (((fun a => if a.id == i then f a else a) a).id == i) = (a.id == i) := by
    intro a
    by_cases ha : a.id = i
    · simp [ha, hf a]
    · simp [ha]
  rw [show ({ s with ethTxAttempts := s.ethTxAttempts.map fun a =>
      if a.id == i then f a else a } : Store).ethTxAttempts
      = s.ethTxAttempts.map (fun a => if a.id == i then f a else a) from rfl]
  rw [findOfMapCongr _ _ hq s.ethTxAttempts]
  cases hft : s.ethTxAttempts.find? (fun a => a.id == i) with
  | none => rfl
  | some a =>
    have hti := List.find?_some hft
    have hti2 : a.id = i := by simpa using hti
    simp [hti2]

/-! ### saveAttempt characterization -/

theorem saveAttempt_precond_error {s : Store} {etx : EthTx} {attempt : EthTxAttempt}
    {ns : EthTxAttemptState} {cbs : List (Store → Except String Store)}
    (h : ¬(etx.state = .inProgress ∧ attempt.state = .inProgress ∧ ns = .broadcast)) :
    ∃ m, saveAttempt s etx attempt ns cbs = .error m := by
  unfold saveAttempt
  by_cases h1 : etx.state = .inProgress
  · by_cases h2 : attempt.state = .inProgress
    · by_cases h3 : ns = .broadcast
      · exact absurd ⟨h1, h2, h3⟩ h
      · rw [if_neg (not_not_intro h1), if_neg (not_not_intro h2), if_pos h3]
        exact ⟨_, rfl⟩
    · rw [if_neg (not_not_intro h1), if_pos h2]
      exact ⟨_, rfl⟩
  · rw [if_pos h1]
    exact ⟨_, rfl⟩

theorem saveAttempt_success_eq {s : Store} {etx : EthTx} {attempt : EthTxAttempt}
    {cbs : List (Store → Except String Store)} {n : Int} {s1 : Store}
    (hst : etx.state = .inProgress) (hat : attempt.state = .inProgress)
    (hn : etx.nonce = some n)
    (hinc : IncrementNextNonce s etx.fromAddress etx.evmChainId n = .ok s1) :
    saveAttempt s etx attempt .broadcast cbs
      = runCallbacks cbs (broadcastUpdatedStore s1 etx attempt) := by
  unfold saveAttempt broadcastUpdatedStore
  rw [if_neg (not_not_intro hst), if_neg (not_not_intro hat), if_neg (not_not_intro rfl)]
  simp only [hn, hinc]

theorem saveAttempt_ok_elim {s : Store} {etx : EthTx} {attempt : EthTxAttempt}
    {ns : EthTxAttemptState} {cbs : List (Store → Except String Store)} {s2 : Store}
    (h : saveAttempt s etx attempt ns cbs = .ok s2) :
    etx.state = .inProgress ∧ attempt.state = .inProgress ∧ ns = .broadcast
    ∧ ∃ n s1, etx.nonce = some n
        ∧ IncrementNextNonce s etx.fromAddress etx.evmChainId n = .ok s1
        ∧ runCallbacks cbs (broadcastUpdatedStore s1 etx attempt) = .ok s2 := by
  unfold saveAttempt at h
  split at h
  · cases h
  · split at h
    · cases h
    · split at h
      · cases h
      · rename_i h1 h2 h3
        have hst : etx.state = .inProgress := not_not.mp h1
        have hat : attempt.state = .inProgress := not_not.mp h2
        have hns : ns = .broadcast := not_not.mp h3
        refine ⟨hst, hat, hns, ?_⟩
        split at h
        · cases h
        · rename_i n hn
          split at h
          · cases h
          · rename_i s1 hinc
            subst hns
            exact ⟨n, s1, hn, hinc, h⟩

/-- The key-state table of `wStore` after one successful increment of the
(7, 3) row. -/
def wStoreInc : Store :=
  { ethTxes := [wEtx]
    ethTxAttempts := [wAttempt]
    ethKeyStates := [{ address := 7, evmChainId := 3, nextNonce := 5 }] }

/-- Claim C1: saveAttempt succeeds only when the transaction is
in_progress, the attempt is in_progress and the new attempt state is
broadcast; on success, within one transaction it increments next_nonce via
the conditional increment keyed on etx.nonce, moves the eth_txes row to
unconfirmed, moves the attempt row to broadcast and runs every supplied
callback on the mid-transaction store; any precondition failure yields an
error and, the result being an error, no store change. -/
theorem saveAttempt_spec (s : Store) (etx : EthTx) (attempt : EthTxAttempt)
    (ns : EthTxAttemptState) (cbs : List (Store → Except String Store)) :
    (¬(etx.state = .inProgress ∧ attempt.state = .inProgress ∧ ns = .broadcast) →
       ∃ m, saveAttempt s etx attempt ns cbs = .error m)
    ∧ (∀ s2, saveAttempt s etx attempt ns cbs = .ok s2 →
        etx.state = .inProgress ∧ attempt.state = .inProgress ∧ ns = .broadcast
        ∧ ∃ n s1, etx.nonce = some n
            ∧ IncrementNextNonce s etx.fromAddress etx.evmChainId n = .ok s1
            ∧ s1.ethTxes = s.ethTxes ∧ s1.ethTxAttempts = s.ethTxAttempts
            ∧ runCallbacks cbs (broadcastUpdatedStore s1 etx attempt) = .ok s2
            ∧ findEthTx (broadcastUpdatedStore s1 etx attempt) etx.id
                = (findEthTx s etx.id).map (fun t =>
                    { t with state := .unconfirmed, error := etx.error,
                             broadcastAt := etx.broadcastAt })
            ∧ findAttempt (broadcastUpdatedStore s1 etx attempt) attempt.id
                = (findAttempt s attempt.id).map (fun a => { a with state := .broadcast })
            ∧ (broadcastUpdatedStore s1 etx attempt).ethKeyStates = s1.ethKeyStates)
    ∧ (∀ n s1, etx.state = .inProgress → attempt.state = .inProgress → ns = .broadcast →
        etx.nonce = some n →
        IncrementNextNonce s etx.fromAddress etx.evmChainId n = .ok s1 →
        saveAttempt s etx attempt ns cbs
          = runCallbacks cbs (broadcastUpdatedStore s1 etx attempt)) := by
  refine ⟨fun h => saveAttempt_precond_error h, ?_, ?_⟩
  · intro s2 h
    obtain ⟨hst, hat, hns, n, s1, hn, hinc, hrun⟩ := saveAttempt_ok_elim h
    have hshape := IncrementNextNonce_ok_elim hinc
    have hs1tx : s1.ethTxes = s.ethTxes := by rw [hshape]
    have hs1at : s1.ethTxAttempts = s.ethTxAttempts := by rw [hshape]
    refine ⟨hst, hat, hns, n, s1, hn, hinc, hs1tx, hs1at, hrun, ?_, ?_, rfl⟩
    · have h1 : findEthTx (broadcastUpdatedStore s1 etx attempt) etx.id
          = findEthTx (updateEthTxRow s1 etx.id fun t =>
              { t with state := .unconfirmed, error := etx.error,
                       broadcastAt := etx.broadcastAt }) etx.id :=
        findEthTx_congr rfl etx.id
      rw [h1, findEthTx_update_self s1 etx.id
        (fun t => { t with state := .unconfirmed, error := etx.error,
                           broadcastAt := etx.broadcastAt }) (fun t => rfl),
        findEthTx_congr hs1tx etx.id]
    · have h2 : (updateEthTxRow s1 etx.id fun t =>
          { t with state := .unconfirmed, error := etx.error,
                   broadcastAt := etx.broadcastAt }).ethTxAttempts = s.ethTxAttempts := hs1at
      unfold broadcastUpdatedStore
      rw [findAttempt_update_self _ attempt.id
        (fun a => { a with state := .broadcast }) (fun a => rfl), findAttempt_congr h2]
  · intro n s1 hst hat hns hn hinc
    subst hns
    exact saveAttempt_success_eq hst hat hn hinc

/-- Witness for C1: at the concrete store `wStore` the preconditions hold,
the conditional increment succeeds producing `wStoreInc`, and saveAttempt
equals the callback run over the mid-transaction store. -/
theorem saveAttempt_spec_witness :
    wEtx.state = .inProgress ∧ wAttempt.state = .inProgress ∧ wEtx.nonce = some 4
    ∧ IncrementNextNonce wStore wEtx.fromAddress wEtx.evmChainId 4 = .ok wStoreInc
    ∧ saveAttempt wStore wEtx wAttempt .broadcast []
        = runCallbacks [] (broadcastUpdatedStore wStoreInc wEtx wAttempt) :=
  ⟨by decide, by decide, by rfl, by rfl,
    (saveAttempt_spec wStore wEtx wAttempt .broadcast []).2.2 4 wStoreInc
      (by decide) (by decide) rfl (by rfl) (by rfl)⟩

/-- Claim C2: with well-formed key rows, IncrementNextNonce succeeds
exactly when the stored next_nonce for (address, chain) equals the expected
current nonce; on success the stored value becomes expected + 1 and nothing
else changes; when no row matches it returns the unrecoverable
invariant-violation error. -/
theorem IncrementNextNonce_spec (s : Store) (a c : Nat) (e : Int) (hK : keysUnique s) :
    ((∃ s1, IncrementNextNonce s a c e = .ok s1) ↔ GetNextNonce s a c = some e)
    ∧ (∀ s1, IncrementNextNonce s a c e = .ok s1 →
        GetNextNonce s1 a c = some (e + 1)
        ∧ (∀ a2 c2, ¬(a2 = a ∧ c2 = c) → GetNextNonce s1 a2 c2 = GetNextNonce s a2 c2)
        ∧ s1.ethTxes = s.ethTxes ∧ s1.ethTxAttempts = s.ethTxAttempts)
    ∧ (GetNextNonce s a c ≠ some e →
        IncrementNextNonce s a c e
          = .error "invariant violation: could not increment nonce because no rows matched query") := by
  have hfwd : (∃ s1, IncrementNextNonce s a c e = .ok s1) → GetNextNonce s a c = some e := by
    intro hok
    obtain ⟨k, hk, hm⟩ := (IncrementNextNonce_ok_iff s a c e).mp hok
    obtain ⟨hka, hke, hkc⟩ := (nonceMatch_iff a c e k).mp hm
    have hkey : keyMatch a c k = true := (keyMatch_iff a c k).mpr ⟨hka, hkc⟩
    have hfind : s.ethKeyStates.find? (keyMatch a c) = some k := by
      refine find_eq_of_mem_unique hk hkey ?_
      intro x hx hqx
      obtain ⟨hxa, hxc⟩ := (keyMatch_iff a c x).mp hqx
      exact hK x hx k hk (hxa.trans hka.symm) (hxc.trans hkc.symm)
    unfold GetNextNonce
    rw [hfind]
    simpa using hke
  have hbwd : GetNextNonce s a c = some e → ∃ s1, IncrementNextNonce s a c e = .ok s1 := by
    intro hg
    unfold GetNextNonce at hg
    cases hfind : s.ethKeyStates.find? (keyMatch a c) with
    | none => rw [hfind] at hg; cases hg
    | some k =>
      rw [hfind] at hg
      have hke : k.nextNonce = e := by simpa using hg
      have hkm := (keyMatch_iff a c k).mp (List.find?_some hfind)
      have hmem : k ∈ s.ethKeyStates := List.mem_of_find?_eq_some hfind
      exact (IncrementNextNonce_ok_iff s a c e).mpr
        ⟨k, hmem, (nonceMatch_iff a c e k).mpr ⟨hkm.1, hke, hkm.2⟩⟩
  refine ⟨⟨hfwd, hbwd⟩, ?_, ?_⟩
  · intro s1 h1
    have hg : GetNextNonce s a c = some e := hfwd ⟨s1, h1⟩
    have hshape := IncrementNextNonce_ok_elim h1
    subst hshape
    refine ⟨GetNextNonce_after_incr hg, ?_, rfl, rfl⟩
    intro a2 c2 hne
    exact GetNextNonce_incr_frame a2 c2 hne
  · intro hg
    have hzero : s.ethKeyStates.countP (nonceMatch a c e) = 0 := by
      by_contra hnz
      exact hg (hfwd ((IncrementNextNonce_ok_iff s a c e).mpr
        (List.countP_pos_iff.mp (Nat.pos_of_ne_zero hnz))))
    unfold IncrementNextNonce
    rw [if_pos (by simpa using hzero)]

/-- Witness for C2: in `wStore` the key row (7, 3) stores next_nonce 4, the
rows are key-unique, and the conditional increment at expected value 4
succeeds. -/
theorem IncrementNextNonce_spec_witness :
    keysUnique wStore ∧ GetNextNonce wStore 7 3 = some 4
    ∧ (∃ s1, IncrementNextNonce wStore 7 3 4 = .ok s1) :=
  ⟨by unfold keysUnique; decide, by rfl,
    ((IncrementNextNonce_spec wStore 7 3 4 (by unfold keysUnique; decide)).1).mpr (by rfl)⟩

/-- The transaction of `wStore` with a fatal error string recorded. -/
def wFatalEtx : EthTx := { wEtx with error := some "boom" }

/-- Claim C6: for an in_progress transaction with a non-empty error string
(and a resume step that does not hard-fail), saveFatallyErroredTransaction
leaves the row in fatal_error with nonce and broadcast_at cleared, deletes
every attempt of that transaction, records the error string, and leaves
eth_key_states (hence next_nonce) and all other rows untouched; for a
transaction not in in_progress it returns an error and changes nothing. -/
theorem saveFatallyErroredTransaction_spec (env : Env) (s : Store) (etx : EthTx) :
    (∀ msg, etx.state = .inProgress → etx.error = some msg → msg ≠ "" →
      resumeStep env etx = .ok () →
      ∃ s1, saveFatallyErroredTransaction env s etx = .ok s1
        ∧ findEthTx s1 etx.id = (findEthTx s etx.id).map (fun t =>
            { t with state := .fatalError, error := some msg, broadcastAt := none,
                     nonce := none })
        ∧ s1.ethTxAttempts.filter (fun a => a.ethTxId == etx.id) = []
        ∧ s1.ethTxAttempts = s.ethTxAttempts.filter (fun a => a.ethTxId ≠ etx.id)
        ∧ s1.ethKeyStates = s.ethKeyStates
        ∧ (∀ a2 c2, GetNextNonce s1 a2 c2 = GetNextNonce s a2 c2)
        ∧ (∀ j, j ≠ etx.id → findEthTx s1 j = findEthTx s j))
    ∧ (etx.state ≠ .inProgress →
        ∃ m, saveFatallyErroredTransaction env s etx = .error m) := by
  constructor
  · intro msg hst herr hmsg hres
    unfold saveFatallyErroredTransaction
    rw [if_neg (not_not_intro hst), if_neg (by rw [herr]; simp)]
    simp only [hres]
    refine ⟨_, rfl, ?_, ?_, rfl, rfl, fun a2 c2 => GetNextNonce_congr rfl a2 c2, ?_⟩
    · have h1 := findEthTx_update_self
        { s with ethTxAttempts := s.ethTxAttempts.filter fun a => a.ethTxId ≠ etx.id }
        etx.id
        (fun t => { t with state := .fatalError, error := etx.error, broadcastAt := none,
                           nonce := none })
        (fun t => rfl)
      rw [h1, herr]
      rfl
    · rw [List.filter_eq_nil_iff]
      intro a ha
      have h2 := List.of_mem_filter ha
      simp only [decide_eq_true_eq] at h2
      simpa using h2
    · intro j hj
      have h3 := findEthTx_update_other
        { s with ethTxAttempts := s.ethTxAttempts.filter fun a => a.ethTxId ≠ etx.id }
        etx.id j
        (fun t => { t with state := .fatalError, error := etx.error, broadcastAt := none,
                           nonce := none })
        (fun t => rfl) hj
      rw [h3]
      rfl
  · intro hst
    unfold saveFatallyErroredTransaction
    rw [if_pos hst]
    exact ⟨_, rfl⟩

/-- Witness for C6: the concrete transaction `wFatalEtx` in `wStore` is
saved as fatal_error with its attempt deleted and next_nonce untouched. -/
theorem saveFatallyErroredTransaction_spec_witness :
    wFatalEtx.state = .inProgress ∧ wFatalEtx.error = some "boom" ∧ "boom" ≠ ""
    ∧ resumeStep wEnv wFatalEtx = .ok ()
    ∧ ∃ s1, saveFatallyErroredTransaction wEnv wStore wFatalEtx = .ok s1
        ∧ findEthTx s1 wFatalEtx.id = (findEthTx wStore wFatalEtx.id).map (fun t =>
            { t with state := .fatalError, error := some "boom", broadcastAt := none,
                     nonce := none })
        ∧ s1.ethTxAttempts.filter (fun a => a.ethTxId == wFatalEtx.id) = []
        ∧ s1.ethTxAttempts = wStore.ethTxAttempts.filter (fun a => a.ethTxId ≠ wFatalEtx.id)
        ∧ s1.ethKeyStates = wStore.ethKeyStates
        ∧ (∀ a2 c2, GetNextNonce s1 a2 c2 = GetNextNonce wStore a2 c2)
        ∧ (∀ j, j ≠ wFatalEtx.id → findEthTx s1 j = findEthTx wStore j) :=
  ⟨by decide, by rfl, by decide, by rfl,
    (saveFatallyErroredTransaction_spec wEnv wStore wFatalEtx).1 "boom"
      (by decide) (by rfl) (by decide) (by rfl)⟩

/-! ### Lexicographic order lemmas for the unstarted queue -/

theorem txLexLe_refl (a : EthTx) : txLexLe a a = true := by
  simp [txLexLe]

theorem txLexLe_total (a b : EthTx) : txLexLe a b = true ∨ txLexLe b a = true := by
  simp only [txLexLe, Bool.or_eq_true, Bool.and_eq_true, decide_eq_true_eq, beq_iff_eq]
  omega

theorem txLexLe_trans {a b c : EthTx} (h1 : txLexLe a b = true)
    (h2 : txLexLe b c = true) : txLexLe a c = true := by
  simp only [txLexLe, Bool.or_eq_true, Bool.and_eq_true, decide_eq_true_eq,
    beq_iff_eq] at h1 h2 ⊢
  omega

theorem foldl_pick_mem (ts : List EthTx) :
    ∀ t : EthTx, ts.foldl (fun acc u => if txLexLe acc u then acc else u) t ∈ t :: ts := by
  induction ts with
  | nil =>
    intro t
    simp
  | cons v vs ih =>
    intro t
    simp only [List.foldl_cons]
    by_cases hp : txLexLe t v = true
    · rw [if_pos hp]
      rcases List.mem_cons.mp (ih t) with h | h
      · rw [h]
        exact List.mem_cons_self t (v :: vs)
      · exact List.mem_cons_of_mem _ (List.mem_cons_of_mem _ h)
    · rw [if_neg hp]
      rcases List.mem_cons.mp (ih v) with h | h
      · rw [h]
        exact List.mem_cons_of_mem _ (List.mem_cons_self v vs)
      · exact List.mem_cons_of_mem _ (List.mem_cons_of_mem _ h)

theorem foldl_pick_le (ts : List EthTx) :
    ∀ t : EthTx, ∀ u ∈ t :: ts,
      txLexLe (ts.foldl (fun acc u => if txLexLe acc u then acc else u) t) u = true := by
  induction ts with
  | nil =>
    intro t u hu
    rcases List.mem_cons.mp hu with h | h
    · subst h
      exact txLexLe_refl u
    · cases h
  | cons v vs ih =>
    intro t u hu
    simp only [List.foldl_cons]
    by_cases hp : txLexLe t v = true
    · rw [if_pos hp]
      rcases List.mem_cons.mp hu with h | h
      · subst h
        exact ih u u (List.mem_cons_self u vs)
      · rcases List.mem_cons.mp h with h2 | h2
        · subst h2
          exact txLexLe_trans (ih t t (List.mem_cons_self t vs)) hp
        · exact ih t u (List.mem_cons_of_mem _ h2)
    · rw [if_neg hp]
      have hvt : txLexLe v t = true := by
        rcases txLexLe_total t v with h | h
        · exact absurd h hp
        · exact h
      rcases List.mem_cons.mp hu with h | h
      · subst h
        exact txLexLe_trans (ih v v (List.mem_cons_self v vs)) hvt
      · rcases List.mem_cons.mp h with h2 | h2
        · subst h2
          exact ih u u (List.mem_cons_self u vs)
        · exact ih v u (List.mem_cons_of_mem _ h2)

/-- Claim C3: nextUnstartedTransactionWithNonce returns none exactly when
no unstarted row exists for the address on the chain, and otherwise its
result is the row that is minimal in the (value ASC, created_at ASC, id
ASC) lexicographic order among all unstarted rows, with the stored
next_nonce assigned; hence each pick follows that ordering. -/
theorem nextUnstarted_lex_minimal (s : Store) (fromAddress chainID : Nat) :
    (unstartedTxs s fromAddress chainID = []
       ↔ nextUnstartedTransactionWithNonce s fromAddress chainID = .ok none)
    ∧ (∀ e, nextUnstartedTransactionWithNonce s fromAddress chainID = .ok (some e) →
        ∃ m ∈ unstartedTxs s fromAddress chainID,
          (∀ u ∈ unstartedTxs s fromAddress chainID, txLexLe m u = true)
          ∧ ∃ nonce, GetNextNonce s m.fromAddress chainID = some nonce
              ∧ e = { m with nonce := some nonce }) := by
  cases hl : unstartedTxs s fromAddress chainID with
  | nil =>
    have hfn : findNextUnstartedTransactionFromAddress s fromAddress chainID = none := by
      unfold findNextUnstartedTransactionFromAddress
      rw [hl]
    constructor
    · constructor
      · intro _
        unfold nextUnstartedTransactionWithNonce
        rw [hfn]
      · intro _
        rfl
    · intro e he
      unfold nextUnstartedTransactionWithNonce at he
      rw [hfn] at he
      cases he
  | cons t ts =>
    have hfn : findNextUnstartedTransactionFromAddress s fromAddress chainID
        = some (ts.foldl (fun acc u => if txLexLe acc u then acc else u) t) := by
      unfold findNextUnstartedTransactionFromAddress
      rw [hl]
    constructor
    · constructor
      · intro h
        exact absurd h (List.cons_ne_nil t ts)
      · intro h
        exfalso
        unfold nextUnstartedTransactionWithNonce at h
        rw [hfn] at h
        cases hg : GetNextNonce s
            (ts.foldl (fun acc u => if txLexLe acc u then acc else u) t).fromAddress
            chainID with
        | none => simp [hg] at h
        | some nonce => simp [hg] at h
    · intro e he
      unfold nextUnstartedTransactionWithNonce at he
      rw [hfn] at he
      cases hg : GetNextNonce s
          (ts.foldl (fun acc u => if txLexLe acc u then acc else u) t).fromAddress
          chainID with
      | none => simp [hg] at he
      | some nonce =>
        simp only [hg] at he
        have he2 := Option.some.inj (Except.ok.inj he)
        exact ⟨ts.foldl (fun acc u => if txLexLe acc u then acc else u) t,
          foldl_pick_mem ts t, foldl_pick_le ts t, nonce, hg, he2.symm⟩

/-- Witness for C3: in `wQueueStore` the pick is row 12 (value 1,
created_at 3), the minimum of the three unstarted rows in the (value,
created_at, id) order, and it receives nonce 4. -/
theorem nextUnstarted_lex_minimal_witness :
    nextUnstartedTransactionWithNonce wQueueStore 7 3
      = .ok (some { wUnstarted 12 1 3 with nonce := some 4 })
    ∧ ∃ m ∈ unstartedTxs wQueueStore 7 3,
        (∀ u ∈ unstartedTxs wQueueStore 7 3, txLexLe m u = true)
        ∧ ∃ nonce, GetNextNonce wQueueStore m.fromAddress 3 = some nonce
            ∧ ({ wUnstarted 12 1 3 with nonce := some 4 } : EthTx)
                = { m with nonce := some nonce } :=
  ⟨by rfl, (nextUnstarted_lex_minimal wQueueStore 7 3).2 _ (by rfl)⟩

/-! ### handleInProgressEthTx helpers -/

theorem IncrementNextNonce_of_get {s : Store} {a c : Nat} {e : Int}
    (hg : GetNextNonce s a c = some e) :
    IncrementNextNonce s a c e
      = .ok { s with ethKeyStates := s.ethKeyStates.map (incFun a c e) } := by
  have hex : ∃ s1, IncrementNextNonce s a c e = .ok s1 := by
    unfold GetNextNonce at hg
    cases hfind : s.ethKeyStates.find? (keyMatch a c) with
    | none => rw [hfind] at hg; cases hg
    | some k =>
      rw [hfind] at hg
      have hke : k.nextNonce = e := by simpa using hg
      have hkm := (keyMatch_iff a c k).mp (List.find?_some hfind)
      exact (IncrementNextNonce_ok_iff s a c e).mpr
        ⟨k, List.mem_of_find?_eq_some hfind,
          (nonceMatch_iff a c e k).mpr ⟨hkm.1, hke, hkm.2⟩⟩
  obtain ⟨s1, h1⟩ := hex
  exact h1.trans (congrArg Except.ok (IncrementNextNonce_ok_elim h1))

theorem handle_success_send (env : Env) (s : Store) (etx : EthTx)
    (attempt : EthTxAttempt) (t0 : Nat) (rest : List (Option SendErr))
    (se : Option SendErr)
    (hst : etx.state = .inProgress) (hsim : etx.simulate = false)
    (hse : se = none ∨ se = some .nonceTooLow ∨ se = some .replacementUnderpriced
      ∨ se = some .temporarilyUnderpriced) :
    handleInProgressEthTx env s etx attempt t0 (se :: rest)
      = saveAttempt s { etx with broadcastAt := some t0 } attempt .broadcast [] := by
  rcases hse with rfl | rfl | rfl | rfl <;>
    simp [handleInProgressEthTx, hst, hsim]

/-- Claim C4: when the send of an in_progress transaction is classified
NonceTooLow or ReplacementUnderpriced, handleInProgressEthTx treats the
outcome as success: the row ends unconfirmed with the attempt saved as
broadcast, and next_nonce is incremented by exactly one (the
save-broadcast transaction runs exactly once). -/
theorem handle_nonceTooLow_treated_as_success
    (env : Env) (s : Store) (etx : EthTx) (attempt : EthTxAttempt) (t0 : Nat)
    (se : SendErr) (n : Int)
    (hse : se = .nonceTooLow ∨ se = .replacementUnderpriced)
    (hst : etx.state = .inProgress) (hsim : etx.simulate = false)
    (hat : attempt.state = .inProgress) (hn : etx.nonce = some n)
    (hg : GetNextNonce s etx.fromAddress etx.evmChainId = some n) :
    ∃ s1, handleInProgressEthTx env s etx attempt t0 [some se] = .ok s1
      ∧ GetNextNonce s1 etx.fromAddress etx.evmChainId = some (n + 1)
      ∧ findEthTx s1 etx.id = (findEthTx s etx.id).map (fun t =>
          { t with state := .unconfirmed, error := etx.error, broadcastAt := some t0 })
      ∧ findAttempt s1 attempt.id = (findAttempt s attempt.id).map
          (fun a => { a with state := .broadcast }) := by
  have hhandle := handle_success_send env s etx attempt t0 [] (some se) hst hsim
    (by rcases hse with rfl | rfl
        · exact Or.inr (Or.inl rfl)
        · exact Or.inr (Or.inr (Or.inl rfl)))
  have hinc : IncrementNextNonce s etx.fromAddress etx.evmChainId n
      = .ok { s with ethKeyStates :=
          s.ethKeyStates.map (incFun etx.fromAddress etx.evmChainId n) } :=
    IncrementNextNonce_of_get hg
  have hsave := @saveAttempt_success_eq s { etx with broadcastAt := some t0 } attempt
    [] n { s with ethKeyStates :=
      s.ethKeyStates.map (incFun etx.fromAddress etx.evmChainId n) }
    hst hat hn hinc
  refine ⟨broadcastUpdatedStore
      { s with ethKeyStates :=
          s.ethKeyStates.map (incFun etx.fromAddress etx.evmChainId n) }
      { etx with broadcastAt := some t0 } attempt, ?_, ?_, ?_, ?_⟩
  · rw [hhandle, hsave]
    rfl
  · exact GetNextNonce_after_incr hg
  · exact findEthTx_update_self
      { s with ethKeyStates :=
          s.ethKeyStates.map (incFun etx.fromAddress etx.evmChainId n) }
      etx.id
      (fun t => { t with state := .unconfirmed, error := etx.error,
                         broadcastAt := some t0 })
      (fun t => rfl)
  · exact findAttempt_update_self
      (updateEthTxRow
        { s with ethKeyStates :=
            s.ethKeyStates.map (incFun etx.fromAddress etx.evmChainId n) }
        etx.id
        (fun t => { t with state := .unconfirmed, error := etx.error,
                           broadcastAt := some t0 }))
      attempt.id
      (fun a => { a with state := .broadcast })
      (fun a => rfl)

/-- Witness for C4: in `wStore`, a nonce-too-low classification ends with
the row unconfirmed, the attempt broadcast, and next_nonce moved from 4 to
exactly 5. -/
theorem handle_nonceTooLow_witness :
    (SendErr.nonceTooLow = SendErr.nonceTooLow ∨ SendErr.nonceTooLow = SendErr.replacementUnderpriced)
    ∧ wEtx.state = .inProgress ∧ wEtx.simulate = false
    ∧ wAttempt.state = .inProgress ∧ wEtx.nonce = some 4
    ∧ GetNextNonce wStore wEtx.fromAddress wEtx.evmChainId = some 4
    ∧ ∃ s1, handleInProgressEthTx wEnv wStore wEtx wAttempt 99 [some .nonceTooLow] = .ok s1
        ∧ GetNextNonce s1 wEtx.fromAddress wEtx.evmChainId = some (4 + 1)
        ∧ findEthTx s1 wEtx.id = (findEthTx wStore wEtx.id).map (fun t =>
            { t with state := .unconfirmed, error := wEtx.error, broadcastAt := some 99 })
        ∧ findAttempt s1 wAttempt.id = (findAttempt wStore wAttempt.id).map
            (fun a => { a with state := .broadcast }) :=
  ⟨Or.inl rfl, by decide, by decide, by decide, by rfl, by rfl,
    handle_nonceTooLow_treated_as_success wEnv wStore wEtx wAttempt 99 .nonceTooLow 4
      (Or.inl rfl) (by decide) (by decide) (by decide) (by rfl) (by rfl)⟩

/-- Claim C5 as stated is false on the code: recovering the in_progress
row of `wStore` (stored broadcast_at 5, created_at 10) writes
broadcast_at 10 back on the success path, i.e. the row's created_at, not
its existing broadcast_at. -/
theorem handleAny_existing_broadcastAt_cex :
    ((handleAnyInProgressEthTx wEnv wStore 7 [none]).toOption.bind
        fun s1 => (findEthTx s1 1).map (·.broadcastAt)) = some (some 10)
    ∧ (findEthTx wStore 1).map (·.broadcastAt) = some (some 5)
    ∧ (findEthTx wStore 1).map (·.createdAt) = some 10 :=
  ⟨rfl, rfl, rfl⟩

theorem getInProgress_ok_elim {s : Store} {fromAddress : Nat} {etx : EthTx}
    {attempt : EthTxAttempt}
    (h : getInProgressEthTx s fromAddress = .ok (some (etx, attempt))) :
    etx.state = .inProgress ∧ attempt.state = .inProgress := by
  unfold getInProgressEthTx at h
  cases hfind : s.ethTxes.find? (fun t => t.fromAddress == fromAddress
      && t.state == EthTxState.inProgress) with
  | none => rw [hfind] at h; cases h
  | some etx2 =>
    rw [hfind] at h
    have hpred := List.find?_some hfind
    have hst2 : etx2.state = EthTxState.inProgress := by
      simp only [Bool.and_eq_true, beq_iff_eq] at hpred
      exact hpred.2
    cases hfil : s.ethTxAttempts.filter (fun a => a.ethTxId == etx2.id) with
    | nil =>
      simp only [hfil] at h
      cases h
    | cons a rest =>
      cases rest with
      | nil =>
        simp only [hfil] at h
        by_cases hstt : (a.state == EthTxAttemptState.inProgress) = true
        · rw [if_pos hstt] at h
          have h2 := Option.some.inj (Except.ok.inj h)
          have he : etx2 = etx := congrArg Prod.fst h2
          have ha : a = attempt := congrArg Prod.snd h2
          subst he
          subst ha
          exact ⟨hst2, by simpa using hstt⟩
        · rw [if_neg hstt] at h
          cases h
      | cons b r2 =>
        simp only [hfil] at h
        cases h

/-- Claim C5 (amended): the worker resumes an in_progress row passing the
row's created_at, not its stored broadcast_at, as the initial broadcast
time, and on the success path that created_at is what is written back as
broadcast_at. -/
theorem handleAny_resumes_with_createdAt :
    (∀ (env : Env) (s : Store) (fromAddress : Nat) (etx : EthTx)
        (attempt : EthTxAttempt) (sends : List (Option SendErr)),
      getInProgressEthTx s fromAddress = .ok (some (etx, attempt)) →
      handleAnyInProgressEthTx env s fromAddress sends
        = handleInProgressEthTx env s etx attempt etx.createdAt sends)
    ∧ (∀ (env : Env) (s : Store) (fromAddress : Nat) (etx : EthTx)
        (attempt : EthTxAttempt) (n : Int),
      getInProgressEthTx s fromAddress = .ok (some (etx, attempt)) →
      etx.simulate = false → etx.nonce = some n →
      GetNextNonce s etx.fromAddress etx.evmChainId = some n →
      ∃ s1, handleAnyInProgressEthTx env s fromAddress [none] = .ok s1
        ∧ findEthTx s1 etx.id = (findEthTx s etx.id).map (fun t =>
            { t with state := .unconfirmed, error := etx.error,
                     broadcastAt := some etx.createdAt })) := by
  have hmain : ∀ (env : Env) (s : Store) (fromAddress : Nat) (etx : EthTx)
      (attempt : EthTxAttempt) (sends : List (Option SendErr)),
      getInProgressEthTx s fromAddress = .ok (some (etx, attempt)) →
      handleAnyInProgressEthTx env s fromAddress sends
        = handleInProgressEthTx env s etx attempt etx.createdAt sends := by
    intro env s fromAddress etx attempt sends hget
    unfold handleAnyInProgressEthTx
    rw [hget]
  refine ⟨hmain, ?_⟩
  intro env s fromAddress etx attempt n hget hsim hn hg
  obtain ⟨hst, hat⟩ := getInProgress_ok_elim hget
  have hhandle := handle_success_send env s etx attempt etx.createdAt [] none hst hsim
    (Or.inl rfl)
  have hinc : IncrementNextNonce s etx.fromAddress etx.evmChainId n
      = .ok { s with ethKeyStates :=
          s.ethKeyStates.map (incFun etx.fromAddress etx.evmChainId n) } :=
    IncrementNextNonce_of_get hg
  have hsave := @saveAttempt_success_eq s { etx with broadcastAt := some etx.createdAt }
    attempt [] n
    { s with ethKeyStates := s.ethKeyStates.map (incFun etx.fromAddress etx.evmChainId n) }
    hst hat hn hinc
  refine ⟨broadcastUpdatedStore
      { s with ethKeyStates :=
          s.ethKeyStates.map (incFun etx.fromAddress etx.evmChainId n) }
      { etx with broadcastAt := some etx.createdAt } attempt, ?_, ?_⟩
  · rw [hmain env s fromAddress etx attempt [none] hget, hhandle, hsave]
    rfl
  · exact findEthTx_update_self
      { s with ethKeyStates :=
          s.ethKeyStates.map (incFun etx.fromAddress etx.evmChainId n) }
      etx.id
      (fun t => { t with state := .unconfirmed, error := etx.error,
                         broadcastAt := some etx.createdAt })
      (fun t => rfl)

/-- Witness for the amended C5: recovering `wStore` for address 7 equals
finishing the job with created_at 10 as initial broadcast time, and the
success path writes broadcast_at 10. -/
theorem handleAny_resumes_with_createdAt_witness :
    getInProgressEthTx wStore 7 = .ok (some (wEtx, wAttempt))
    ∧ handleAnyInProgressEthTx wEnv wStore 7 [none]
        = handleInProgressEthTx wEnv wStore wEtx wAttempt wEtx.createdAt [none]
    ∧ ∃ s1, handleAnyInProgressEthTx wEnv wStore 7 [none] = .ok s1
        ∧ findEthTx s1 wEtx.id = (findEthTx wStore wEtx.id).map (fun t =>
            { t with state := .unconfirmed, error := wEtx.error,
                     broadcastAt := some wEtx.createdAt }) :=
  ⟨by rfl,
    handleAny_resumes_with_createdAt.1 wEnv wStore 7 wEtx wAttempt [none] (by rfl),
    handleAny_resumes_with_createdAt.2 wEnv wStore 7 wEtx wAttempt 4 (by rfl)
      (by decide) (by rfl) (by rfl)⟩

/-- Claim C8: for an EIP-1559 (tx_type 0x2) attempt classified
TerminallyUnderpriced, the bump-gas retry path returns a hard error to the
worker instead of building or saving a replacement attempt, so the case is
reported rather than treated as success. -/
theorem tryAgainBumpingGas_eip1559_hard_error (env : Env) (s : Store) (etx : EthTx)
    (attempt : EthTxAttempt) (t0 : Nat) (rest : List (Option SendErr))
    (ht : attempt.txType = 2) :
    tryAgainBumpingGas env s etx attempt
      = .error "bumping gas on initial send is not supported for EIP-1559 transactions"
    ∧ (etx.state = .inProgress → etx.simulate = false →
        handleInProgressEthTx env s etx attempt t0 (some .terminallyUnderpriced :: rest)
          = .error "bumping gas on initial send is not supported for EIP-1559 transactions") := by
  have h1 : ∀ etx2 : EthTx, tryAgainBumpingGas env s etx2 attempt
      = .error "bumping gas on initial send is not supported for EIP-1559 transactions" := by
    intro etx2
    simp [tryAgainBumpingGas, ht]
  refine ⟨h1 etx, fun hst hsim => ?_⟩
  simp [handleInProgressEthTx, hst, hsim, h1]

/-- Witness for C8: the EIP-1559 attempt `w1559Attempt` makes both the
bump path and the whole handling of a terminally-underpriced send fail
with the hard error. -/
theorem tryAgainBumpingGas_eip1559_hard_error_witness :
    w1559Attempt.txType = 2
    ∧ tryAgainBumpingGas wEnv wStore wEtx w1559Attempt
        = .error "bumping gas on initial send is not supported for EIP-1559 transactions"
    ∧ handleInProgressEthTx wEnv wStore wEtx w1559Attempt 99 [some .terminallyUnderpriced]
        = .error "bumping gas on initial send is not supported for EIP-1559 transactions" :=
  ⟨by rfl,
    (tryAgainBumpingGas_eip1559_hard_error wEnv wStore wEtx w1559Attempt 99 [] (by rfl)).1,
    (tryAgainBumpingGas_eip1559_hard_error wEnv wStore wEtx w1559Attempt 99 [] (by rfl)).2
      (by decide) (by decide)⟩

/-- Claim C9: both retry paths (re-estimation after FeeTooLow or
FeeTooHigh, and bumping after TerminallyUnderpriced) always build the
replacement as a legacy tx_type 0x0 attempt priced through the legacy
estimator path, for every environment, including environments with
EvmEIP1559DynamicFees enabled. -/
theorem retryPaths_build_legacy_attempts (env : Env) (s : Store) (etx : EthTx)
    (attempt : EthTxAttempt) :
    (∀ s1 ra, tryAgainWithNewEstimation env s etx attempt = .ok (s1, ra) →
      ra.txType = 0 ∧ ra.state = .inProgress
      ∧ ∃ gp gl, env.getLegacyGas etx.encodedPayload etx.gasLimit true = .ok (gp, gl)
          ∧ ra.gasPrice = gp ∧ ra.gasLimit = gl)
    ∧ (∀ s1 ra, tryAgainBumpingGas env s etx attempt = .ok (s1, ra) →
      ra.txType = 0 ∧ ra.state = .inProgress
      ∧ ∃ gp gl, env.bumpLegacyGas attempt.gasPrice etx.gasLimit = .ok (gp, gl)
          ∧ ra.gasPrice = gp ∧ ra.gasLimit = gl) := by
  constructor
  · intro s1 ra h
    unfold tryAgainWithNewEstimation at h
    split at h
    · cases h
    · rename_i gp gl heq
      unfold tryAgainWithNewGas at h
      split at h
      · cases h
      · rename_i s2 hrep
        have h2 := Except.ok.inj h
        have hra : NewLegacyAttempt s etx gp gl = ra := congrArg Prod.snd h2
        subst hra
        exact ⟨rfl, rfl, gp, gl, heq, rfl, rfl⟩
  · intro s1 ra h
    unfold tryAgainBumpingGas at h
    split at h
    · cases h
    · split at h
      · cases h
      · rename_i gp gl heq
        split at h
        · cases h
        · unfold tryAgainWithNewGas at h
          split at h
          · cases h
          · rename_i s2 hrep
            have h2 := Except.ok.inj h
            have hra : NewLegacyAttempt s etx gp gl = ra := congrArg Prod.snd h2
            subst hra
            exact ⟨rfl, rfl, gp, gl, heq, rfl, rfl⟩

/-- Witness for C9: with dynamic fees enabled in `wEnv`, the re-estimation
retry on `wStore` still produces the legacy attempt `wReplacement` with
tx_type 0x0 at the legacy estimator price 50. -/
theorem retryPaths_build_legacy_attempts_witness :
    wEnv.dynamicFees = true
    ∧ tryAgainWithNewEstimation wEnv wStore wEtx wAttempt = .ok (wReplacedStore, wReplacement)
    ∧ (wReplacement.txType = 0 ∧ wReplacement.state = .inProgress
        ∧ ∃ gp gl, wEnv.getLegacyGas wEtx.encodedPayload wEtx.gasLimit true = .ok (gp, gl)
            ∧ wReplacement.gasPrice = gp ∧ wReplacement.gasLimit = gl) :=
  ⟨rfl, by rfl,
    (retryPaths_build_legacy_attempts wEnv wStore wEtx wAttempt).1
      wReplacedStore wReplacement (by rfl)⟩

/-- Claim C10: in the legacy bump path, when the estimator's bumped price
equals the current attempt's gas price and that price equals the
configured EvmMaxGasPriceWei ceiling, tryAgainBumpingGas returns the
terminal ceiling error without saving a replacement or re-sending, so a
bump that cannot raise the price never loops. -/
theorem tryAgainBumpingGas_ceiling_terminal (env : Env) (s : Store) (etx : EthTx)
    (attempt : EthTxAttempt) (t0 : Nat) (rest : List (Option SendErr)) (gl : Nat)
    (ht : attempt.txType = 0)
    (hbump : env.bumpLegacyGas attempt.gasPrice etx.gasLimit = .ok (attempt.gasPrice, gl))
    (hceil : attempt.gasPrice = env.maxGasPriceWei) :
    tryAgainBumpingGas env s etx attempt
      = .error "Hit gas price bump ceiling, will not bump further. This is a terminal error"
    ∧ (etx.state = .inProgress → etx.simulate = false →
        handleInProgressEthTx env s etx attempt t0 (some .terminallyUnderpriced :: rest)
          = .error "Hit gas price bump ceiling, will not bump further. This is a terminal error") := by
  have h1 : ∀ etx2 : EthTx, etx2.gasLimit = etx.gasLimit →
      tryAgainBumpingGas env s etx2 attempt
        = .error "Hit gas price bump ceiling, will not bump further. This is a terminal error" := by
    intro etx2 hgl
    have hbump2 : env.bumpLegacyGas env.maxGasPriceWei etx.gasLimit
        = .ok (env.maxGasPriceWei, gl) := by
      rw [← hceil]
      exact hbump
    unfold tryAgainBumpingGas
    rw [hgl]
    simp [ht, hceil, hbump2]
  refine ⟨h1 etx rfl, fun hst hsim => ?_⟩
  simp [handleInProgressEthTx, hst, hsim, h1]

/-- Witness for C10: under `wEnvCeiling` the bump of the 100-wei attempt
returns 100 again, which is the ceiling, so the bump path and the whole
terminally-underpriced handling end in the terminal ceiling error. -/
theorem tryAgainBumpingGas_ceiling_terminal_witness :
    wAttempt.txType = 0
    ∧ wEnvCeiling.bumpLegacyGas wAttempt.gasPrice wEtx.gasLimit = .ok (wAttempt.gasPrice, 21000)
    ∧ wAttempt.gasPrice = wEnvCeiling.maxGasPriceWei
    ∧ tryAgainBumpingGas wEnvCeiling wStore wEtx wAttempt
        = .error "Hit gas price bump ceiling, will not bump further. This is a terminal error"
    ∧ handleInProgressEthTx wEnvCeiling wStore wEtx wAttempt 99 [some .terminallyUnderpriced]
        = .error "Hit gas price bump ceiling, will not bump further. This is a terminal error" :=
  ⟨by rfl, by rfl, by rfl,
    (tryAgainBumpingGas_ceiling_terminal wEnvCeiling wStore wEtx wAttempt 99 [] 21000
      (by rfl) (by rfl) (by rfl)).1,
    (tryAgainBumpingGas_ceiling_terminal wEnvCeiling wStore wEtx wAttempt 99 [] 21000
      (by rfl) (by rfl) (by rfl)).2 (by decide) (by decide)⟩

/-! ### Sorting lemmas for DropOldest pruning -/

theorem mem_insertDesc (i : Nat) (l : List Nat) (x : Nat) :
    x ∈ insertDesc i l ↔ x = i ∨ x ∈ l := by
  induction l with
  | nil => simp [insertDesc]
  | cons j js ih =>
    unfold insertDesc
    by_cases h : j < i
    · rw [if_pos h]
      simp only [List.mem_cons]
    · rw [if_neg h]
      simp only [List.mem_cons, ih]
      tauto

theorem perm_insertDesc (i : Nat) (l : List Nat) : (insertDesc i l).Perm (i :: l) := by
  induction l with
  | nil => simp [insertDesc]
  | cons j js ih =>
    unfold insertDesc
    by_cases h : j < i
    · rw [if_pos h]
    · rw [if_neg h]
      exact (List.Perm.cons j ih).trans (List.Perm.swap i j js)

theorem sortDesc_perm (l : List Nat) : (sortDesc l).Perm l := by
  induction l with
  | nil => simp [sortDesc]
  | cons a l ih =>
    exact (perm_insertDesc a (sortDesc l)).trans (List.Perm.cons a ih)

theorem pairwise_insertDesc {i : Nat} {l : List Nat}
    (h : l.Pairwise (fun a b => b ≤ a)) :
    (insertDesc i l).Pairwise (fun a b => b ≤ a) := by
  induction l with
  | nil => simp [insertDesc]
  | cons j js ih =>
    rcases List.pairwise_cons.mp h with ⟨hj, hjs⟩
    unfold insertDesc
    by_cases hlt : j < i
    · rw [if_pos hlt]
      refine List.pairwise_cons.mpr ⟨?_, h⟩
      intro x hx
      rcases List.mem_cons.mp hx with rfl | hx2
      · exact Nat.le_of_lt hlt
      · exact Nat.le_trans (hj x hx2) (Nat.le_of_lt hlt)
    · rw [if_neg hlt]
      refine List.pairwise_cons.mpr ⟨?_, ih hjs⟩
      intro x hx
      rcases (mem_insertDesc i js x).mp hx with rfl | hx2
      · exact Nat.le_of_not_lt hlt
      · exact hj x hx2

theorem sortDesc_pairwise (l : List Nat) :
    (sortDesc l).Pairwise (fun a b => b ≤ a) := by
  induction l with
  | nil => simp [sortDesc]
  | cons a l ih => exact pairwise_insertDesc ih

/-- Claim C7: PruneQueue for DropOldest(S, N) deletes exactly the
unstarted rows carrying subject S other than the N with the largest id
(regardless of from_address), returns the number deleted, leaves rows of
other subjects or states and the other tables untouched, and afterwards at
most N unstarted rows remain for S (exactly min N of the original count)
and every remaining one has a larger id than every deleted one. -/
theorem PruneQueue_spec (S N : Nat) (sim : Bool) (s : Store)
    (hid : (s.ethTxes.map (·.id)).Nodup) (cnt : Int) (s2 : Store)
    (hpq : (DropOldestStrategy.mk S N sim).PruneQueue s = (cnt, s2)) :
    s2.ethTxes.Sublist s.ethTxes
    ∧ (∀ t ∈ s.ethTxes, isSubjectUnstarted S t = false → t ∈ s2.ethTxes)
    ∧ (s2.ethTxes.filter (isSubjectUnstarted S)).length
        = min N (s.ethTxes.filter (isSubjectUnstarted S)).length
    ∧ cnt = Int.ofNat ((s.ethTxes.filter (isSubjectUnstarted S)).length
        - (s2.ethTxes.filter (isSubjectUnstarted S)).length)
    ∧ (∀ t ∈ s2.ethTxes, isSubjectUnstarted S t = true →
        ∀ u ∈ s.ethTxes, isSubjectUnstarted S u = true → u ∉ s2.ethTxes → u.id < t.id)
    ∧ s2.ethTxAttempts = s.ethTxAttempts ∧ s2.ethKeyStates = s.ethKeyStates := by
  have hcnt : cnt = Int.ofNat (s.ethTxes.countP (pruneDoomed S N s)) :=
    (congrArg Prod.fst hpq).symm
  have hs2 : s2 = { s with ethTxes := s.ethTxes.filter fun t => !(pruneDoomed S N s t) } :=
    (congrArg Prod.snd hpq).symm
  subst hcnt
  subst hs2
  have hcontains : ∀ (L : List Nat) (a : Nat), L.contains a = true ↔ a ∈ L := by
    intro L a
    exact List.elem_iff
  have hidsub : ((s.ethTxes.filter (isSubjectUnstarted S)).map (·.id)).Nodup :=
    List.Nodup.sublist (List.Sublist.map _ (List.filter_sublist s.ethTxes)) hid
  have hperm : (sortDesc ((s.ethTxes.filter (isSubjectUnstarted S)).map (·.id))).Perm
      ((s.ethTxes.filter (isSubjectUnstarted S)).map (·.id)) := sortDesc_perm _
  have hsortNodup :
      (sortDesc ((s.ethTxes.filter (isSubjectUnstarted S)).map (·.id))).Nodup :=
    hperm.nodup_iff.mpr hidsub
  have hKD : pruneKeepIds S N s
        ++ (sortDesc ((s.ethTxes.filter (isSubjectUnstarted S)).map (·.id))).drop N
      = sortDesc ((s.ethTxes.filter (isSubjectUnstarted S)).map (·.id)) :=
    List.take_append_drop N _
  obtain ⟨hnK, hnD, hdisj⟩ := List.nodup_append.mp (hKD.symm ▸ hsortNodup)
  have hpairKD0 : (pruneKeepIds S N s
        ++ (sortDesc ((s.ethTxes.filter (isSubjectUnstarted S)).map (·.id))).drop
          N).Pairwise (fun a b => b ≤ a) :=
    hKD.symm ▸ sortDesc_pairwise ((s.ethTxes.filter (isSubjectUnstarted S)).map (·.id))
  have hpairKD := List.pairwise_append.mp hpairKD0
  have hlen_ids : ((s.ethTxes.filter (isSubjectUnstarted S)).map (·.id)).length
      = (s.ethTxes.filter (isSubjectUnstarted S)).length := List.length_map _ _
  have hKlen : (pruneKeepIds S N s).length
      = min N ((s.ethTxes.filter (isSubjectUnstarted S)).map (·.id)).length := by
    show ((sortDesc ((s.ethTxes.filter (isSubjectUnstarted S)).map (·.id))).take N).length = _
    rw [List.length_take, hperm.length_eq]
  have hff : ((s.ethTxes.filter fun t => !(pruneDoomed S N s t)).filter
        (isSubjectUnstarted S))
      = s.ethTxes.filter (fun t => isSubjectUnstarted S t
          && (pruneKeepIds S N s).contains t.id) := by
    rw [List.filter_filter]
    refine List.filter_congr ?_
    intro t _
    by_cases hP : isSubjectUnstarted S t = true <;>
      by_cases hmem : t.id ∈ pruneKeepIds S N s <;>
        simp [pruneDoomed, hP, hmem]
  have hmapK : ((s.ethTxes.filter (fun t => isSubjectUnstarted S t
          && (pruneKeepIds S N s).contains t.id)).map (·.id))
      = ((s.ethTxes.filter (isSubjectUnstarted S)).map (·.id)).filter
          (fun i => (pruneKeepIds S N s).contains i) :=
    map_filter_and (·.id) (isSubjectUnstarted S)
      (fun i => (pruneKeepIds S N s).contains i) s.ethTxes
  have hfilperm : ((((s.ethTxes.filter (isSubjectUnstarted S)).map (·.id)).filter
        (fun i => (pruneKeepIds S N s).contains i))).length
      = (pruneKeepIds S N s).length := by
    rw [(hperm.symm.filter (fun i => (pruneKeepIds S N s).contains i)).length_eq,
      ← hKD, List.filter_append]
    have hKfull : (pruneKeepIds S N s).filter (fun i => (pruneKeepIds S N s).contains i)
        = pruneKeepIds S N s :=
      List.filter_eq_self.mpr (fun a ha => (hcontains _ a).mpr ha)
    have hDnil : ((sortDesc ((s.ethTxes.filter (isSubjectUnstarted S)).map (·.id))).drop
          N).filter (fun i => (pruneKeepIds S N s).contains i) = [] :=
      List.filter_eq_nil_iff.mpr (fun a ha hca => hdisj ((hcontains _ a).mp hca) ha)
    rw [hKfull, hDnil]
    simp
  have hkeptlen : ((s.ethTxes.filter fun t => !(pruneDoomed S N s t)).filter
        (isSubjectUnstarted S)).length
      = min N (s.ethTxes.filter (isSubjectUnstarted S)).length := by
    rw [hff, ← List.length_map _ (·.id), hmapK, hfilperm, hKlen, hlen_ids]
  have hdel_map : ((s.ethTxes.filter (pruneDoomed S N s)).map (·.id))
      = ((s.ethTxes.filter (isSubjectUnstarted S)).map (·.id)).filter
          (fun i => !((pruneKeepIds S N s).contains i)) := by
    have h0 : s.ethTxes.filter (pruneDoomed S N s)
        = s.ethTxes.filter (fun t => isSubjectUnstarted S t
            && !((pruneKeepIds S N s).contains t.id)) :=
      List.filter_congr (fun t _ => rfl)
    rw [h0]
    exact map_filter_and (·.id) (isSubjectUnstarted S)
      (fun i => !((pruneKeepIds S N s).contains i)) s.ethTxes
  have hdel_len : ((s.ethTxes.filter (pruneDoomed S N s)).map (·.id)).length
      = ((s.ethTxes.filter (isSubjectUnstarted S)).map (·.id)).length - N := by
    rw [hdel_map,
      (hperm.symm.filter (fun i => !((pruneKeepIds S N s).contains i))).length_eq,
      ← hKD, List.filter_append]
    have hKnil : (pruneKeepIds S N s).filter
        (fun i => !((pruneKeepIds S N s).contains i)) = [] := by
      refine List.filter_eq_nil_iff.mpr ?_
      intro a ha h2
      rw [(hcontains _ a).mpr ha] at h2
      cases h2
    have hDfull : ((sortDesc ((s.ethTxes.filter (isSubjectUnstarted S)).map
          (·.id))).drop N).filter (fun i => !((pruneKeepIds S N s).contains i))
        = (sortDesc ((s.ethTxes.filter (isSubjectUnstarted S)).map (·.id))).drop N := by
      refine List.filter_eq_self.mpr ?_
      intro a ha
      have hna : a ∉ pruneKeepIds S N s := fun hmem => hdisj hmem ha
      cases hc : (pruneKeepIds S N s).contains a
      · rfl
      · exact absurd ((hcontains _ a).mp hc) hna
    rw [hKnil, hDfull]
    simp [List.length_drop, hperm.length_eq]
  refine ⟨List.filter_sublist _, ?_, hkeptlen, ?_, ?_, rfl, rfl⟩
  · intro t ht hf
    refine List.mem_filter.mpr ⟨ht, ?_⟩
    simp [pruneDoomed, hf]
  · refine congrArg Int.ofNat ?_
    rw [List.countP_eq_length_filter, ← List.length_map _ (·.id), hdel_len, hkeptlen,
      hlen_ids]
    omega
  · intro t htmem htP u humem huP hunot
    obtain ⟨htrow, htkeep⟩ := List.mem_filter.mp htmem
    have htK : t.id ∈ pruneKeepIds S N s := by
      have hd : pruneDoomed S N s t = false := by
        cases hx : pruneDoomed S N s t
        · rfl
        · rw [hx] at htkeep
          cases htkeep
      unfold pruneDoomed at hd
      rw [htP] at hd
      simp only [Bool.true_and, Bool.not_eq_false'] at hd
      exact (hcontains _ t.id).mp hd
    have huD : u.id ∈ (sortDesc ((s.ethTxes.filter
        (isSubjectUnstarted S)).map (·.id))).drop N := by
      have hdoom : pruneDoomed S N s u = true := by
        cases hx : pruneDoomed S N s u
        · exact absurd (List.mem_filter.mpr ⟨humem, by simp [hx]⟩) hunot
        · rfl
      have hnotK : u.id ∉ pruneKeepIds S N s := by
        unfold pruneDoomed at hdoom
        rw [huP] at hdoom
        simp only [Bool.true_and, Bool.not_eq_true'] at hdoom
        intro hmem
        rw [(hcontains _ u.id).mpr hmem] at hdoom
        cases hdoom
      have huids : u.id ∈ (s.ethTxes.filter (isSubjectUnstarted S)).map (·.id) :=
        List.mem_map.mpr ⟨u, List.mem_filter.mpr ⟨humem, huP⟩, rfl⟩
      have husort := (sortDesc_perm _).mem_iff.mpr huids
      rcases List.mem_append.mp (hKD.symm ▸ husort) with h | h
      · exact absurd h hnotK
      · exact h
    have hle : u.id ≤ t.id := hpairKD.2.2 t.id htK u.id huD
    have hne : u.id ≠ t.id := fun he => hdisj htK (he ▸ huD)
    exact Nat.lt_of_le_of_ne hle hne

/-- Witness for C7: the nine-row scenario of the source test; pruning
subject 11 with queue size 2 deletes 2 rows and keeps exactly the two
largest-id unstarted rows of that subject plus all other rows. -/
theorem PruneQueue_spec_witness :
    (pruneStore.ethTxes.map (·.id)).Nodup
    ∧ (DropOldestStrategy.mk 11 2 false).PruneQueue pruneStore
        = ((DropOldestStrategy.mk 11 2 false).PruneQueue pruneStore)
    ∧ ((DropOldestStrategy.mk 11 2 false).PruneQueue pruneStore).1 = 2
    ∧ (((DropOldestStrategy.mk 11 2 false).PruneQueue pruneStore).2.ethTxes.filter
        (fun t => t.state == EthTxState.unstarted)).map (·.id) = [6, 8, 9]
    ∧ (((DropOldestStrategy.mk 11 2 false).PruneQueue pruneStore).2.ethTxes.filter
          (isSubjectUnstarted 11)).length
        = min 2 (pruneStore.ethTxes.filter (isSubjectUnstarted 11)).length :=
  ⟨by decide, rfl, by decide, by decide,
    ((PruneQueue_spec 11 2 false pruneStore (by decide)
      ((DropOldestStrategy.mk 11 2 false).PruneQueue pruneStore).1
      ((DropOldestStrategy.mk 11 2 false).PruneQueue pruneStore).2 rfl).2.2.1)⟩
